import Mathlib

/-!
Shallow embedding of the entity/relation/knowledge-graph pipeline of the
repository (files `semantic_analysis/knowledge_graph.py` and
`semantic_analysis/entity_recognizer.py`).

Texts are modelled as `List Char`.  Python regular expressions are modelled
by a small abstract syntax tree `Re` together with a backtracking matcher
`Re.mat` that reproduces the leftmost, greedy, preference-ordered semantics
of the `re` module for the constructs the source patterns use (character
classes, concatenation, preference-ordered alternation, greedy star and
option, capture groups, word boundaries, negative lookahead).  Character
classes such as Python `\w`, `\s`, `\d` and the case conversions are
modelled at ASCII precision, which covers every character the source
patterns and the concrete inputs of this development use.
-/

namespace SemAnalysis

/-- The backslash character, written by code point to keep escapes out of literals. -/
def bsC : Char := Char.ofNat 92

/-- The single-quote character, written by code point. -/
def qC : Char := Char.ofNat 39

/-- The double-quote character, written by code point. -/
def dqC : Char := Char.ofNat 34

/-- Python `\s` (ASCII fragment): space, tab, newline, vertical tab, form feed, carriage return. -/
def isPySpace (c : Char) : Bool :=
  c == ' ' || (9 ≤ c.toNat && c.toNat ≤ 13)

/-- Python `\w` (ASCII fragment): letters, digits and underscore. -/
def isWordChar (c : Char) : Bool :=
  c.isAlphanum || c == '_'

/-- Python `str.lower` at ASCII precision, characterwise. -/
def pyLowerChar (c : Char) : Char :=
  if 'A' ≤ c && c ≤ 'Z' then Char.ofNat (c.toNat + 32) else c

/-- Python `str.lower` at ASCII precision. -/
def pyLower (s : List Char) : List Char := s.map pyLowerChar

/-- Python `str.strip()` (ASCII whitespace fragment). -/
def pyStrip (s : List Char) : List Char :=
  ((s.dropWhile isPySpace).reverse.dropWhile isPySpace).reverse

/-- Does `p` occur at the head of `s`? -/
def startsWith : List Char → List Char → Bool
  | [], _ => true
  | _ :: _, [] => false
  | a :: as, b :: bs => a == b && startsWith as bs

/-- Python substring membership `p in s`. -/
def hasSub (p : List Char) : List Char → Bool
  | [] => startsWith p []
  | s@(_ :: rest) => startsWith p s || hasSub p rest

/-- The slice `s[i:j]` of a character list. -/
def slice (s : List Char) (i j : Nat) : List Char :=
  (s.drop i).take (j - i)

/-- Regular-expression syntax covering the constructs used by the source patterns. -/
inductive Re where
  | eps : Re
  | cls (p : Char → Bool) : Re
  | cat (a b : Re) : Re
  | alt (a b : Re) : Re
  | star (a : Re) : Re
  | opt (a : Re) : Re
  | grp (n : Nat) (a : Re) : Re
  | wb : Re
  | negLA (a : Re) : Re

/-- Group environment: most recent binding of each capture group first. -/
def Groups := List (Nat × String)

/-- A regex match: span `[start, stop)` plus the bound capture groups. -/
structure RMatch where
  start : Nat
  stop : Nat
  groups : List (Nat × String)
  deriving Repr

/-- Look up a capture group, most recent binding first (`None` when unbound). -/
def glook (n : Nat) : List (Nat × String) → Option String
  | [] => none
  | (m, v) :: rest => if m == n then some v else glook n rest

/-- Python `Match.lastindex`: the highest-numbered bound group, if any
(the source patterns have no nested groups, where CPython would differ). -/
def lastIndex (g : List (Nat × String)) : Option Nat :=
  match g with
  | [] => none
  | (m, _) :: rest =>
    match lastIndex rest with
    | none => some m
    | some k => some (max m k)

/-- Word-boundary test at position `i` of `s` (Python `\b`). -/
def atWordBoundary (s : List Char) (i : Nat) : Bool :=
  let prev := if h : i - 1 < s.length then (i != 0) && isWordChar (s.get ⟨i - 1, h⟩) else false
  let cur := if h : i < s.length then isWordChar (s.get ⟨i, h⟩) else false
  prev != cur

/-- Greedy star loop: try one more (strictly progressing) body iteration first,
then fall back to the continuation, mirroring the backtracking `re` engine.
`fuel` only bounds the recursion; it is chosen large enough (remaining text
plus one) that it never runs out before progress is impossible. -/
def starLoop (body : Nat → List (Nat × String) → (Nat → List (Nat × String) → Option RMatch) → Option RMatch) :
    Nat → Nat → List (Nat × String) → (Nat → List (Nat × String) → Option RMatch) → Option RMatch
  | 0, i, g, k => k i g
  | fuel + 1, i, g, k =>
    (body i g (fun j g2 => if i < j then starLoop body fuel j g2 k else none)) <|> k i g

/-- Backtracking matcher in continuation-passing style.  `Re.mat re s i g k`
tries to match `re` in `s` starting at position `i` with group environment
`g`, and calls `k` with the end position and groups of each candidate in
the preference order of the Python `re` engine, returning the first success. -/
def Re.mat (s : List Char) : Re → Nat → List (Nat × String) → (Nat → List (Nat × String) → Option RMatch) → Option RMatch
  | .eps, i, g, k => k i g
  | .cls p, i, g, k =>
    if h : i < s.length then
      if p (s.get ⟨i, h⟩) then k (i + 1) g else none
    else none
  | .cat a b, i, g, k => Re.mat s a i g (fun j g2 => Re.mat s b j g2 k)
  | .alt a b, i, g, k => (Re.mat s a i g k) <|> (Re.mat s b i g k)
  | .star a, i, g, k => starLoop (fun j g2 k2 => Re.mat s a j g2 k2) (s.length + 1 - i) i g k
  | .opt a, i, g, k => (Re.mat s a i g k) <|> k i g
  | .grp n a, i, g, k => Re.mat s a i g (fun j g2 => k j ((n, String.mk (slice s i j)) :: g2))
  | .wb, i, g, k => if atWordBoundary s i then k i g else none
  | .negLA a, i, g, k =>
    match Re.mat s a i g (fun j g2 => some ⟨i, j, g2⟩) with
    | some _ => none
    | none => k i g

/-- The leftmost-greedy match of `re` anchored at position `i`, if any. -/
def matchAt (s : List Char) (re : Re) (i : Nat) : Option RMatch :=
  Re.mat s re i [] (fun j g => some ⟨i, j, g⟩)

/-- Scan for the leftmost match starting at or after `pos` (Python `re.search` from `pos`). -/
def searchFrom (s : List Char) (re : Re) : Nat → Nat → Option RMatch
  | 0, _ => none
  | fuel + 1, pos => (matchAt s re pos) <|> searchFrom s re fuel (pos + 1)

/-- Helper loop for `findIter`. -/
def findIterGo (s : List Char) (re : Re) : Nat → Nat → List RMatch
  | 0, _ => []
  | fuel + 1, pos =>
    match searchFrom s re (s.length + 1 - pos) pos with
    | none => []
    | some m =>
      m :: findIterGo s re fuel (if m.stop == m.start then m.stop + 1 else m.stop)

/-- Python `re.finditer`: successive non-overlapping leftmost matches, resuming
after each match (advancing one extra position after an empty match). -/
def findIter (s : List Char) (re : Re) : List RMatch :=
  findIterGo s re (s.length + 2) 0

/-- Whole text of a match. -/
def RMatch.text (s : List Char) (m : RMatch) : String :=
  String.mk (slice s m.start m.stop)

/- Pattern-building helpers. -/

/-- Literal string, case-sensitive. -/
def lit (str : String) : Re :=
  str.toList.foldr (fun c acc => .cat (.cls (fun x => x == c)) acc) .eps

/-- Literal string matched case-insensitively (models the `re.IGNORECASE` flag
on the patterns that are compiled with it). -/
def ciLit (str : String) : Re :=
  str.toList.foldr (fun c acc => .cat (.cls (fun x => pyLowerChar x == pyLowerChar c)) acc) .eps

/-- Preference-ordered alternation of a list of alternatives. -/
def alts : List Re → Re
  | [] => .eps
  | [r] => r
  | r :: rest => .alt r (alts rest)

/-- Case-sensitive alternation of literal words, in declaration order. -/
def litAlts (ws : List String) : Re := alts (ws.map lit)

/-- Case-insensitive alternation of literal words, in declaration order. -/
def ciAlts (ws : List String) : Re := alts (ws.map ciLit)

/-- `r+`. -/
def plusRe (r : Re) : Re := .cat r (.star r)

/-- `[A-Z]`. -/
def upperCls : Re := .cls (fun c => 'A' ≤ c && c ≤ 'Z')

/-- `[a-z]`. -/
def lowerCls : Re := .cls (fun c => 'a' ≤ c && c ≤ 'z')

/-- `\w`. -/
def wCls : Re := .cls isWordChar

/-- `\s`. -/
def sCls : Re := .cls isPySpace

/-- `\d`. -/
def dCls : Re := .cls Char.isDigit

/-- `\w+`. -/
def wPlus : Re := plusRe wCls

/-- `\s+`. -/
def sPlus : Re := plusRe sCls

/-- Sequence of several parts. -/
def seqRe : List Re → Re
  | [] => .eps
  | [r] => r
  | r :: rest => .cat r (seqRe rest)

/-- Literal single quote as a pattern (the `\'` in the source patterns). -/
def aposRe : Re := .cls (fun c => c == qC)

/-! ## `knowledge_graph.py`: data model -/

/-- `Entity` dataclass of `knowledge_graph.py`.  The `attributes` map holds a
single key `first_mention_pos` throughout the module, embedded as a field. -/
structure KGEntity where
  id : String
  name : String
  entity_type : String
  mentions : Nat
  first_mention_pos : Nat
  deriving Repr, DecidableEq

/-- `Relation` dataclass of `knowledge_graph.py`. -/
structure KGRelation where
  source_id : String
  target_id : String
  relation_type : String
  confidence : ℚ
  context : String
  deriving Repr, DecidableEq

/-- The one uncaught Python exception the module can raise
(`None.strip()` inside `extract_entities` / `extract_relations`). -/
inductive PyErr where
  | attributeError
  deriving Repr, DecidableEq

/-- A source regex together with its number of capturing groups
(`len(match.groups())` in Python is determined by the pattern alone). -/
structure KGPat where
  re : Re
  numGroups : Nat

/-- One entry of the `_initialize_entity_patterns` table (the `indicators` /
`pronouns` / `prepositions` lists are dead data, read nowhere). -/
structure KGEntityCat where
  name : String
  pats : List KGPat

/-- `KnowledgeGraphBuilder._initialize_entity_patterns`, in declaration order. -/
def kgEntityCats : List KGEntityCat := [
  { name := "PERSON",
    pats := [⟨seqRe [.wb, .grp 1 (seqRe [upperCls, plusRe lowerCls]), .wb,
                     .star (seqRe [sPlus, upperCls, plusRe lowerCls])], 1⟩] },
  { name := "LOCATION",
    pats := [⟨seqRe [litAlts ["in", "at", "to", "from"], sPlus,
                     .opt (seqRe [lit "the", sPlus]),
                     .grp 1 (seqRe [upperCls, plusRe lowerCls,
                                    .star (seqRe [sPlus, upperCls, plusRe lowerCls])])], 1⟩] },
  { name := "ORGANIZATION",
    pats := [⟨seqRe [.opt (seqRe [lit "the", sPlus]),
                     .grp 1 (seqRe [upperCls, plusRe lowerCls,
                                    .star (seqRe [sPlus, upperCls, plusRe lowerCls])]),
                     sPlus,
                     litAlts ["Company", "Corporation", "Institute", "Academy", "Guild", "Order"]], 1⟩] },
  { name := "OBJECT",
    pats := [⟨seqRe [litAlts ["the", "a", "an"], sPlus,
                     .opt (.grp 1 (seqRe [wPlus, sPlus])),
                     litAlts ["sword", "ring", "book", "key", "stone", "crown", "wand", "staff", "orb"]], 1⟩] },
  { name := "EVENT",
    pats := [⟨seqRe [litAlts ["the", "a"], sPlus,
                     .opt (.grp 1 (seqRe [wPlus, sPlus])),
                     litAlts ["war", "battle", "ceremony", "festival", "journey", "quest", "adventure"]], 1⟩] }
]

/-- One entry of the `_initialize_relation_patterns` table. -/
structure KGRelCat where
  name : String
  pats : List KGPat

/-- `KnowledgeGraphBuilder._initialize_relation_patterns`, in declaration order.
These patterns are applied with `re.IGNORECASE`, so literals are transcribed
case-insensitively. -/
def kgRelCats : List KGRelCat := [
  { name := "FAMILY",
    pats := [
      ⟨seqRe [.grp 1 wPlus, .opt (seqRe [aposRe, ciLit "s"]), sPlus,
              ciAlts ["father", "mother", "son", "daughter", "brother", "sister", "parent", "child"]], 1⟩,
      ⟨seqRe [.grp 1 wPlus, sPlus, ciAlts ["is", "was"], sPlus,
              .opt (seqRe [ciLit "the", sPlus]),
              ciAlts ["father", "mother", "son", "daughter", "brother", "sister"], sPlus,
              ciLit "of", sPlus, .grp 2 wPlus], 2⟩] },
  { name := "FRIENDSHIP",
    pats := [
      ⟨seqRe [.grp 1 wPlus, sPlus, ciAlts ["and", "with"], sPlus, .grp 2 wPlus, sPlus,
              ciAlts ["are", "were"], sPlus, ciLit "friends"], 2⟩,
      ⟨seqRe [.grp 1 wPlus, .opt (seqRe [aposRe, ciLit "s"]), sPlus,
              ciAlts ["friend", "companion", "ally"]], 1⟩] },
  { name := "ROMANTIC",
    pats := [
      ⟨seqRe [.grp 1 wPlus, sPlus,
              .alt (seqRe [ciLit "love", .opt (ciLit "s")]) (ciLit "loved"), sPlus, .grp 2 wPlus], 2⟩,
      ⟨seqRe [.grp 1 wPlus, sPlus, ciAlts ["and", "with"], sPlus, .grp 2 wPlus, sPlus,
              ciAlts ["married", "engaged", "together"]], 2⟩] },
  { name := "ANTAGONISTIC",
    pats := [
      ⟨seqRe [.grp 1 wPlus, sPlus,
              alts [seqRe [ciLit "hate", .opt (ciLit "s")], ciLit "hated", ciLit "fought",
                    seqRe [ciLit "fight", .opt (ciLit "s")]], sPlus, .grp 2 wPlus], 2⟩,
      ⟨seqRe [.grp 1 wPlus, .opt (seqRe [aposRe, ciLit "s"]), sPlus,
              ciAlts ["enemy", "rival", "opponent", "adversary"]], 1⟩] },
  { name := "LOCATED_IN",
    pats := [
      ⟨seqRe [.grp 1 wPlus, sPlus,
              alts [ciLit "is", ciLit "was", seqRe [ciLit "live", .opt (ciLit "d")],
                    seqRe [ciLit "live", .opt (ciLit "s")]], sPlus,
              ciAlts ["in", "at"], sPlus, .opt (seqRe [ciLit "the", sPlus]), .grp 2 wPlus], 2⟩,
      ⟨seqRe [.grp 1 wPlus, sPlus,
              alts [ciLit "came", seqRe [ciLit "come", .opt (ciLit "s")], ciLit "went",
                    seqRe [ciLit "goe", .opt (ciLit "s")]], sPlus,
              ciAlts ["to", "from"], sPlus, .opt (seqRe [ciLit "the", sPlus]), .grp 2 wPlus], 2⟩] },
  { name := "OWNS",
    pats := [
      ⟨seqRe [.grp 1 wPlus, .opt (seqRe [aposRe, ciLit "s"]), sPlus, .grp 2 wPlus], 2⟩,
      ⟨seqRe [.grp 1 wPlus, sPlus,
              alts [seqRe [ciLit "own", .opt (ciLit "s")], ciLit "owned", ciLit "has", ciLit "had",
                    seqRe [ciLit "possesse", .opt (ciLit "d")]], sPlus,
              .opt (seqRe [ciLit "the", sPlus]), .grp 2 wPlus], 2⟩] },
  { name := "MENTOR",
    pats := [
      ⟨seqRe [.grp 1 wPlus, sPlus,
              alts [ciLit "taught", seqRe [ciLit "teache", .opt (ciLit "s")], ciLit "trained",
                    seqRe [ciLit "train", .opt (ciLit "s")]], sPlus, .grp 2 wPlus], 2⟩,
      ⟨seqRe [.grp 1 wPlus, .opt (seqRe [aposRe, ciLit "s"]), sPlus,
              ciAlts ["mentor", "teacher", "master", "student", "apprentice"]], 1⟩] }
]

/-! ## `knowledge_graph.py`: entity extraction -/

/-- The skip-word set of `_should_skip_entity`. -/
def kgSkipWords : List String :=
  ["The", "This", "That", "These", "Those", "What", "When", "Where",
   "Who", "How", "Why", "There", "Here", "Now", "Then", "But", "And",
   "Once", "Upon", "Time", "Day", "One", "She", "He", "It", "They"]

/-- `KnowledgeGraphBuilder._should_skip_entity`.  The `entity_type` argument
is accepted (as in the source signature) but never read by the body. -/
def shouldSkipEntity (name : String) (entityType : String) : Bool :=
  decide (name.length < 2) || kgSkipWords.contains name

/-- `KnowledgeGraphBuilder._find_existing_entity`: id of the first entity
whose lower-cased name equals the lower-cased candidate name. -/
def findExistingEntity (ents : List KGEntity) (name : String) : Option String :=
  match ents with
  | [] => none
  | e :: rest =>
    if pyLower e.name.toList == pyLower name.toList then some e.id
    else findExistingEntity rest name

/-- Increment `mentions` of the entity stored under id `tid`
(`entities[existing_id].mentions += 1`; dictionary keys are unique, so the
first occurrence is the entry). -/
def bumpMentions (tid : String) : List KGEntity → List KGEntity
  | [] => []
  | e :: rest =>
    if e.id == tid then { e with mentions := e.mentions + 1 } :: rest
    else e :: bumpMentions tid rest

/-- Accumulator of the `extract_entities` loop: the insertion-ordered entity
dictionary and the fresh-id counter. -/
structure KGState where
  ents : List KGEntity
  counter : Nat
  deriving Repr

/-- The body of the `extract_entities` match loop after the name has been
computed and stripped: skip, coalesce into an existing entity, or allocate
a new sequentially-numbered entity. -/
def kgProcessName (st : KGState) (name : String) (entityType : String) (pos : Nat) : KGState :=
  if shouldSkipEntity name entityType then st
  else
    match findExistingEntity st.ents name with
    | some eid => { st with ents := bumpMentions eid st.ents }
    | none =>
      { ents := st.ents ++ [{ id := "E" ++ toString st.counter, name := name,
                              entity_type := entityType, mentions := 1,
                              first_mention_pos := pos }],
        counter := st.counter + 1 }

/-- One `extract_entities` iteration for one regex match:
`name = match.group(1) if match.groups() else match.group()` followed by
`name.strip()`.  A pattern with capture groups whose group 1 did not
participate yields `None`, and `None.strip()` raises `AttributeError`. -/
def kgStepMatch (s : List Char) (entityType : String) (p : KGPat) (st : KGState) (m : RMatch) :
    Except PyErr KGState :=
  let nameOpt := if p.numGroups > 0 then glook 1 m.groups else some (m.text s)
  match nameOpt with
  | none => .error .attributeError
  | some n => .ok (kgProcessName st (String.mk (pyStrip n.toList)) entityType m.start)

/-- The full stream of `(category, pattern, match)` triples scanned by
`extract_entities`, in source iteration order. -/
def kgAllMatches (s : List Char) : List (String × KGPat × RMatch) :=
  kgEntityCats.flatMap fun c =>
    c.pats.flatMap fun p =>
      (findIter s p.re).map fun m => (c.name, p, m)

/-- The `extract_entities` loop over the match stream; an exception raised by
any iteration aborts the whole extraction. -/
def kgFoldE (s : List Char) : List (String × KGPat × RMatch) → KGState → Except PyErr KGState
  | [], st => .ok st
  | it :: rest, st =>
    match kgStepMatch s it.1 it.2.1 st it.2.2 with
    | .error e => .error e
    | .ok st2 => kgFoldE s rest st2

/-- `KnowledgeGraphBuilder.extract_entities`.  Returns the insertion-ordered
entity dictionary as a list, or the uncaught `AttributeError`. -/
def extractEntitiesKG (text : String) : Except PyErr (List KGEntity) :=
  Except.map (fun st => st.ents) (kgFoldE text.toList (kgAllMatches text.toList) ⟨[], 0⟩)

/-! ## `knowledge_graph.py`: relation extraction -/

/-- Insert or overwrite a key in an insertion-ordered string map
(Python `dict` assignment). -/
def setKey (k v : String) : List (String × String) → List (String × String)
  | [] => [(k, v)]
  | (k2, v2) :: rest =>
    if k2 == k then (k, v) :: rest else (k2, v2) :: setKey k v rest

/-- Dictionary lookup. -/
def getKey (k : String) : List (String × String) → Option String
  | [] => none
  | (k2, v) :: rest => if k2 == k then some v else getKey k rest

/-- `entity_names = {e.name.lower(): e.id for e in entities.values()}`:
later entities overwrite earlier ones with the same lower-cased name. -/
def kgNameMap (es : List KGEntity) : List (String × String) :=
  es.foldl (fun acc e => setKey (String.mk (pyLower e.name.toList)) e.id acc) []

/-- One `extract_relations` iteration for one regex match.  A relation is
recorded only when the pattern has at least two capture groups, both
captured names resolve in the entity-name map to truthy (non-empty) ids,
and the two ids differ.  `confidence` defaults to `1.0` and `context` is
the first 100 characters of the full match. -/
def relStepMatch (s : List Char) (relName : String) (p : KGPat)
    (nameMap : List (String × String)) (rs : List KGRelation) (m : RMatch) :
    Except PyErr (List KGRelation) :=
  if p.numGroups ≥ 2 then
    match glook 1 m.groups, glook 2 m.groups with
    | some g1, some g2 =>
      match getKey (String.mk (pyLower (pyStrip g1.toList))) nameMap,
            getKey (String.mk (pyLower (pyStrip g2.toList))) nameMap with
      | some sid, some tid =>
        if sid ≠ "" ∧ tid ≠ "" ∧ sid ≠ tid then
          .ok (rs ++ [{ source_id := sid, target_id := tid, relation_type := relName,
                        confidence := 1, context := String.mk ((slice s m.start m.stop).take 100) }])
        else .ok rs
      | _, _ => .ok rs
    | _, _ => .error .attributeError
  else .ok rs

/-- The full stream of `(relation category, pattern, match)` triples scanned by
`extract_relations`, in source iteration order. -/
def kgAllRelMatches (s : List Char) : List (String × KGPat × RMatch) :=
  kgRelCats.flatMap fun c =>
    c.pats.flatMap fun p =>
      (findIter s p.re).map fun m => (c.name, p, m)

/-- The `extract_relations` loop over the match stream; an exception raised
by any iteration aborts the whole extraction. -/
def relFoldE (s : List Char) (nameMap : List (String × String)) :
    List (String × KGPat × RMatch) → List KGRelation → Except PyErr (List KGRelation)
  | [], rs => .ok rs
  | it :: rest, rs =>
    match relStepMatch s it.1 it.2.1 nameMap rs it.2.2 with
    | .error e => .error e
    | .ok rs2 => relFoldE s nameMap rest rs2

/-- `KnowledgeGraphBuilder.extract_relations`. -/
def extractRelationsKG (text : String) (es : List KGEntity) : Except PyErr (List KGRelation) :=
  relFoldE text.toList (kgNameMap es) (kgAllRelMatches text.toList) []

/-! ## `knowledge_graph.py`: graph structure and statistics -/

/-- Python `str.upper` at ASCII precision, characterwise. -/
def pyUpperChar (c : Char) : Char :=
  if 'a' ≤ c && c ≤ 'z' then Char.ofNat (c.toNat - 32) else c

/-- Python `str.title()` (ASCII fragment): first cased character of each run
is upper-cased, the rest lower-cased. -/
def pyTitleGo : Bool → List Char → List Char
  | _, [] => []
  | prevAlpha, c :: rest =>
    if c.isAlpha then
      (if prevAlpha then pyLowerChar c else pyUpperChar c) :: pyTitleGo true rest
    else c :: pyTitleGo false rest

/-- `relation_type.replace('_', ' ').title()`, the edge label. -/
def edgeLabel (relType : String) : String :=
  String.mk (pyTitleGo false (relType.toList.map fun c => if c == '_' then ' ' else c))

/-- A node of the derived graph view. -/
structure KGNode where
  id : String
  label : String
  ntype : String
  size : Nat
  deriving Repr, DecidableEq

/-- An edge of the derived graph view. -/
structure KGEdge where
  source : String
  target : String
  etype : String
  label : String
  deriving Repr, DecidableEq

/-- The graph dictionary produced by `_build_graph_structure`. -/
structure KGGraph where
  nodes : List KGNode
  edges : List KGEdge
  node_count : Nat
  edge_count : Nat
  deriving Repr, DecidableEq

/-- `KnowledgeGraphBuilder._build_graph_structure`. -/
def buildGraphStructure (es : List KGEntity) (rs : List KGRelation) : KGGraph :=
  let nodes := es.map fun e =>
    { id := e.id, label := e.name, ntype := e.entity_type, size := e.mentions }
  let edges := rs.map fun r =>
    { source := r.source_id, target := r.target_id, etype := r.relation_type,
      label := edgeLabel r.relation_type }
  { nodes := nodes, edges := edges, node_count := nodes.length, edge_count := edges.length }

/-- Increment a counter in an insertion-ordered counting dictionary
(`d[k] = d.get(k, 0) + 1`). -/
def bumpCount (k : String) : List (String × Nat) → List (String × Nat)
  | [] => [(k, 1)]
  | (k2, n) :: rest => if k2 == k then (k, n + 1) :: rest else (k2, n) :: bumpCount k rest

/-- Stable insertion into a list sorted by strictly greater key first: the new
element goes after every element with an equal-or-larger key. -/
def insDesc {α : Type} (key : α → Nat) (x : α) : List α → List α
  | [] => [x]
  | y :: ys => if key y < key x then x :: y :: ys else y :: insDesc key x ys

/-- Stable descending sort by a `Nat` key, processing elements in their
original order; models Python `sorted(..., key=..., reverse=True)`, which is
a stable sort. -/
def stableSortDesc {α : Type} (key : α → Nat) (l : List α) : List α :=
  l.foldl (fun acc x => insDesc key x acc) []

/-- `sorted(entities.values(), key=lambda x: x.mentions, reverse=True)`. -/
def sortedByMentions (es : List KGEntity) : List KGEntity :=
  stableSortDesc (fun e => e.mentions) es

/-- The statistics dictionary produced by `_calculate_statistics`.
`top_entities` keeps the `{'name': ..., 'mentions': ...}` pairs. -/
structure KGStats where
  total_entities : Nat
  total_relations : Nat
  entity_types : List (String × Nat)
  relation_types : List (String × Nat)
  top_entities : List (String × Nat)
  graph_density : ℚ
  is_directed : Bool
  deriving Repr, DecidableEq

/-- `KnowledgeGraphBuilder._calculate_statistics`.  Python float arithmetic is
modelled over `ℚ`. -/
def calcStatisticsKG (es : List KGEntity) (rs : List KGRelation) : KGStats :=
  { total_entities := es.length,
    total_relations := rs.length,
    entity_types := es.foldl (fun acc e => bumpCount e.entity_type acc) [],
    relation_types := rs.foldl (fun acc r => bumpCount r.relation_type acc) [],
    top_entities := ((sortedByMentions es).take 5).map fun e => (e.name, e.mentions),
    graph_density :=
      if 1 < es.length then (rs.length : ℚ) / ((es.length * (es.length - 1) : ℕ) : ℚ) else 0,
    is_directed := true }

/-- Result dictionary of `KnowledgeGraphBuilder.build`. -/
structure KGBuildResult where
  entities : List KGEntity
  relations : List KGRelation
  graph : KGGraph
  statistics : KGStats
  deriving Repr, DecidableEq

/-- `KnowledgeGraphBuilder.build`: the full pipeline (an uncaught exception
in either extraction stage propagates). -/
def buildKG (text : String) : Except PyErr KGBuildResult := do
  let entities ← extractEntitiesKG text
  let relations ← extractRelationsKG text entities
  pure { entities := entities, relations := relations,
         graph := buildGraphStructure entities relations,
         statistics := calcStatisticsKG entities relations }

/-! ## `knowledge_graph.py`: Cypher export -/

/-- Python `str.isprintable`, modelled at ASCII precision (C0 controls, DEL
and C1 controls are non-printable; the remaining characters the development
touches are printable). -/
def isPrintableChar (c : Char) : Bool :=
  !(c.toNat < 32 || c.toNat == 127 || (128 ≤ c.toNat && c.toNat ≤ 159))

/-- `value.replace(chr(92), chr(92)*2)`: double every backslash. -/
def replaceBS (l : List Char) : List Char :=
  l.flatMap fun c => if c == bsC then [bsC, bsC] else [c]

/-- `.replace(chr(39), chr(92) + chr(39))`: put a backslash before every single quote. -/
def replaceQ (l : List Char) : List Char :=
  l.flatMap fun c => if c == qC then [bsC, qC] else [c]

/-- `KnowledgeGraphBuilder._escape_cypher_string`: backslashes first, then
single quotes, then strip non-printable characters. -/
def escapeCypherL (l : List Char) : List Char :=
  (replaceQ (replaceBS l)).filter isPrintableChar

/-- `_escape_cypher_string` on strings. -/
def escapeCypher (v : String) : String :=
  String.mk (escapeCypherL v.toList)

/-- Wrap a string in single quotes, as the Cypher queries do. -/
def sq (s : String) : String :=
  String.singleton qC ++ s ++ String.singleton qC

/-- The node-creation statement of `to_cypher` for one node. -/
def cypherNodeQuery (n : KGNode) : String :=
  "CREATE (n:" ++ escapeCypher n.ntype ++ " \x7bid: " ++ sq (escapeCypher n.id) ++
    ", name: " ++ sq (escapeCypher n.label) ++ ", mentions: " ++ toString n.size ++ "\x7d)"

/-- The match-and-link statement of `to_cypher` for one edge. -/
def cypherEdgeQuery (e : KGEdge) : String :=
  "MATCH (a \x7bid: " ++ sq (escapeCypher e.source) ++ "\x7d), (b \x7bid: " ++
    sq (escapeCypher e.target) ++ "\x7d) CREATE (a)-[:" ++ escapeCypher e.etype ++ "]->(b)"

/-- `KnowledgeGraphBuilder.to_cypher`. -/
def toCypher (g : KGGraph) : String :=
  String.intercalate (";" ++ String.singleton (Char.ofNat 10))
    (g.nodes.map cypherNodeQuery ++ g.edges.map cypherEdgeQuery)

/-- The escaped values that `to_cypher` splices between single quotes (node
ids and labels, edge source and target ids), in emission order.  The node
and relationship type strings are escaped too but are spliced outside any
string literal. -/
def cypherEmbeddedLiterals (g : KGGraph) : List String :=
  g.nodes.flatMap (fun n => [escapeCypher n.id, escapeCypher n.label]) ++
    g.edges.flatMap (fun e => [escapeCypher e.source, escapeCypher e.target])

/-- Scan the inside of a single-quoted Cypher string literal: a backslash
always escapes the following character, a bare single quote would terminate
the literal early, and a trailing backslash would escape the closing quote.
`true` means the content stays inside the literal. -/
def scanLit : List Char → Bool
  | [] => true
  | [c] => if c == bsC then false else if c == qC then false else true
  | c :: d :: rest =>
    if c == bsC then scanLit rest
    else if c == qC then false
    else scanLit (d :: rest)

/-! ## `entity_recognizer.py`: pattern tables -/

/-- `NamedEntity` dataclass of `entity_recognizer.py` (the `attributes` map is
only populated by `resolve_coreferences`, which is outside the claims). -/
structure NamedEntity where
  id : String
  text : String
  entity_type : String
  start_pos : Nat
  end_pos : Nat
  confidence : ℚ
  context : String
  deriving Repr, DecidableEq

/-- One entry of the `EntityRecognizer._initialize_patterns` table. -/
structure NerCat where
  name : String
  pats : List Re
  contextWords : List String
  weight : ℚ

/-- `\d{1,2}`. -/
def d12 : Re := seqRe [dCls, .opt dCls]

/-- `\d{4}`. -/
def d4 : Re := seqRe [dCls, dCls, dCls, dCls]

/-- `\d{2,4}` (greedy: prefers 4, then 3, then 2 digits). -/
def d24 : Re := seqRe [dCls, dCls, .opt dCls, .opt dCls]

/-- `[A-Z][a-z]+(?:\s+[A-Z][a-z]+)*`, the capitalized-words cluster the
recognizer patterns reuse. -/
def capWords : Re :=
  seqRe [upperCls, plusRe lowerCls, .star (seqRe [sPlus, upperCls, plusRe lowerCls])]

/-- `EntityRecognizer._initialize_patterns`, in declaration order.  The
`DATE` and `TIME` categories are compiled with `re.IGNORECASE`
(`entity_type in ['DATE', 'TIME']` at the `re.finditer` call), so their word
literals are transcribed case-insensitively. -/
def nerCats : List NerCat := [
  { name := "PERSON",
    pats := [
      seqRe [.wb, .grp 1 (litAlts ["Mr.", "Mrs.", "Ms.", "Dr.", "Prof.", "Professor", "Sir",
                                   "Lady", "Lord", "King", "Queen", "Prince", "Princess"]),
             sPlus, .grp 2 capWords],
      seqRe [.wb, .grp 1 (seqRe [upperCls, plusRe lowerCls]), sPlus,
             .grp 2 (seqRe [upperCls, plusRe lowerCls]), .wb],
      seqRe [litAlts ["said", "asked", "replied", "shouted"], sPlus,
             .grp 1 (seqRe [upperCls, plusRe lowerCls])]],
    contextWords := ["said", "asked", "told", "thought", "felt", "believed"],
    weight := 1 },
  { name := "LOCATION",
    pats := [
      seqRe [litAlts ["in", "at", "to", "from", "near", "through"], sPlus,
             .opt (seqRe [lit "the", sPlus]), .grp 1 capWords],
      seqRe [.grp 1 (seqRe [upperCls, plusRe lowerCls]), sPlus,
             litAlts ["City", "Town", "Village", "Mountain", "River", "Lake", "Sea", "Ocean",
                      "Forest", "Valley", "Island"]],
      seqRe [.wb, .grp 1 (litAlts ["America", "Europe", "Asia", "Africa", "China", "Japan",
                                   "England", "France", "Germany", "Italy", "Spain"]), .wb]],
    contextWords := ["lived", "traveled", "visited", "arrived", "departed", "located"],
    weight := 9/10 },
  { name := "ORGANIZATION",
    pats := [
      seqRe [.grp 1 capWords, sPlus,
             litAlts ["Inc.", "Corp.", "Ltd.", "Company", "Corporation", "Institute",
                      "University", "Academy", "Guild", "Order"]],
      seqRe [lit "the", sPlus, .grp 1 capWords, sPlus,
             litAlts ["organization", "group", "team", "committee"]]],
    contextWords := ["joined", "founded", "member", "organization", "company"],
    weight := 85/100 },
  { name := "DATE",
    pats := [
      seqRe [.wb, .grp 1 (seqRe [d12, lit "/", d12, lit "/", d24]), .wb],
      seqRe [.wb, .grp 1 (ciAlts ["January", "February", "March", "April", "May", "June",
                                  "July", "August", "September", "October", "November",
                                  "December"]),
             sPlus, d12, .opt (seqRe [.opt (lit ","), sPlus, d4]), .wb],
      seqRe [.wb, .grp 1 d4, .wb, .negLA (seqRe [.star sCls, ciAlts ["people", "years", "times"]])],
      seqRe [.wb, .grp 1 (ciAlts ["Monday", "Tuesday", "Wednesday", "Thursday", "Friday",
                                  "Saturday", "Sunday"]), .wb]],
    contextWords := ["on", "in", "during", "since", "until", "date"],
    weight := 95/100 },
  { name := "TIME",
    pats := [
      seqRe [.wb, .grp 1 (seqRe [d12, lit ":", dCls, dCls, .opt (seqRe [lit ":", dCls, dCls]),
                                 .opt (seqRe [.star sCls, ciAlts ["AM", "PM", "am", "pm"]])]), .wb],
      seqRe [.wb, .grp 1 (ciAlts ["noon", "midnight", "morning", "afternoon", "evening",
                                  "night", "dawn", "dusk"]), .wb]],
    contextWords := ["at", "around", "before", "after", "time"],
    weight := 9/10 },
  { name := "QUANTITY",
    pats := [
      seqRe [.wb, .grp 1 (seqRe [plusRe dCls, .star (seqRe [lit ",", dCls, dCls, dCls]),
                                 .opt (seqRe [lit ".", plusRe dCls])]),
             sPlus,
             alts [seqRe [lit "meter", .opt (lit "s")], seqRe [lit "kilometer", .opt (lit "s")],
                   seqRe [lit "mile", .opt (lit "s")], lit "feet",
                   seqRe [lit "inche", .opt (lit "s")], seqRe [lit "pound", .opt (lit "s")],
                   seqRe [lit "kilogram", .opt (lit "s")], seqRe [lit "dollar", .opt (lit "s")],
                   seqRe [lit "euro", .opt (lit "s")]], .wb],
      seqRe [.wb, .grp 1 (litAlts ["one", "two", "three", "four", "five", "six", "seven",
                                   "eight", "nine", "ten", "hundred", "thousand", "million",
                                   "billion"]), sPlus, wPlus, .wb]],
    contextWords := ["about", "approximately", "nearly", "exactly", "over", "under"],
    weight := 85/100 },
  { name := "EVENT",
    pats := [
      seqRe [.opt (seqRe [lit "the", sPlus]), .grp 1 capWords, sPlus,
             litAlts ["War", "Battle", "Festival", "Ceremony", "Conference", "Meeting",
                      "Tournament"]],
      seqRe [.opt (seqRe [lit "the", sPlus]), .grp 1 (seqRe [upperCls, plusRe lowerCls]), sPlus,
             litAlts ["Revolution", "Rebellion", "Uprising"]]],
    contextWords := ["during", "after", "before", "celebrated", "occurred"],
    weight := 8/10 },
  { name := "WORK_OF_ART",
    pats := [
      seqRe [.cls (fun c => c == dqC), .grp 1 (plusRe (.cls (fun c => c != dqC))),
             .cls (fun c => c == dqC)],
      seqRe [aposRe, .grp 1 (plusRe (.cls (fun c => c != qC))), aposRe],
      seqRe [litAlts ["book", "novel", "story", "poem", "song", "movie", "film"], sPlus,
             litAlts ["called", "titled", "named"], sPlus,
             .grp 1 (seqRe [upperCls,
                            plusRe (.cls (fun c => !(c == '.' || c == '!' || c == '?')))])]],
    contextWords := ["wrote", "read", "watched", "titled", "called"],
    weight := 75/100 }
]

/-- `EntityRecognizer._initialize_stop_words`, transcribed literally (the
Python set literal repeats `Here` and `There`; membership is unaffected). -/
def nerStopWords : List String :=
  ["The", "This", "That", "These", "Those", "There", "Here",
   "What", "When", "Where", "Which", "Who", "How", "Why",
   "But", "And", "Or", "Not", "Just", "Only", "Even",
   "Once", "Upon", "Time", "Day", "One", "It", "Its",
   "She", "He", "They", "We", "You", "I", "My", "Your",
   "His", "Her", "Their", "Our", "Some", "Many", "Much",
   "First", "Last", "Next", "Then", "Now", "Here", "There"]

/-! ## `entity_recognizer.py`: extraction pipeline -/

/-- `EntityRecognizer._overlaps_with_existing`: the span overlaps some already
accepted span (`not (span[1] <= existing[0] or span[0] >= existing[1])`). -/
def overlapsWithExisting (span : Nat × Nat) (seen : List (Nat × Nat)) : Bool :=
  seen.any fun ex => !(span.2 ≤ ex.1 || span.1 ≥ ex.2)

/-- `EntityRecognizer._get_context` with the default 50-character window,
clipped to the text bounds. -/
def getContext (s : List Char) (start stop : Nat) : String :=
  String.mk (slice s (start - 50) (min s.length (stop + 50)))

/-- Python `round` ties-to-even on an exact rational. -/
def halfEven (x : ℚ) : ℤ :=
  let f := ⌊x⌋
  if x - f < 1/2 then f
  else if 1/2 < x - f then f + 1
  else if f % 2 == 0 then f else f + 1

/-- Python `round(x, 2)`, modelled over `ℚ`. -/
def round2 (x : ℚ) : ℚ := (halfEven (100 * x) : ℚ) / 100

/-- Count of configured context-clue words present in the lower-cased context
window (case-insensitive substring test); the configured lists have no
duplicates, so this is a count of distinct clues. -/
def countClues (cat : NerCat) (context : String) : Nat :=
  let cLower := pyLower context.toList
  (cat.contextWords.filter fun w => hasSub w.toList cLower).length

/-- `EntityRecognizer._calculate_confidence`: base weight, `+0.1` per clue
present capped at `1.0` (the cap is only applied when at least one clue
matched), `×0.8` for surface text shorter than 3 characters, rounded to two
decimal places.  Python float arithmetic is modelled over `ℚ`. -/
def calcConfidence (entityText : String) (cat : NerCat) (context : String) : ℚ :=
  let base := cat.weight
  let cnt := countClues cat context
  let base := if 0 < cnt then min (base + (1/10) * cnt) 1 else base
  let base := if entityText.length < 3 then base * (8/10) else base
  round2 base

/-- Surface text of a match:
`match.group(match.lastindex) if match.lastindex else match.group()`
(`lastindex` always names a bound group, so the fallback of `getD` is
unreachable). -/
def nerSurface (s : List Char) (m : RMatch) : String :=
  match lastIndex m.groups with
  | some i => (glook i m.groups).getD (m.text s)
  | none => m.text s

/-- Accumulator of the `extract_entities` loop of the recognizer.  `seen` is
a membership-only set of spans kept as a list (a nonempty span can never be
inserted twice, because it would overlap itself). -/
structure NerState where
  ents : List NamedEntity
  counter : Nat
  seen : List (Nat × Nat)

/-- One loop iteration of `EntityRecognizer.extract_entities` for one match:
strip, stop-word and length filters, overlap rejection, then confidence
scoring and entity construction. -/
def nerStep (s : List Char) (cat : NerCat) (st : NerState) (m : RMatch) : NerState :=
  let entityText := String.mk (pyStrip (nerSurface s m).toList)
  if entityText == "" || nerStopWords.contains entityText then st
  else if entityText.length < 2 && cat.name != "QUANTITY" then st
  else
    let span := (m.start, m.stop)
    if overlapsWithExisting span st.seen then st
    else
      let context := getContext s m.start m.stop
      let confidence := calcConfidence entityText cat context
      { ents := st.ents ++ [{ id := "NE" ++ toString st.counter, text := entityText,
                              entity_type := cat.name, start_pos := m.start, end_pos := m.stop,
                              confidence := confidence, context := context }],
        counter := st.counter + 1,
        seen := st.seen ++ [span] }

/-- The full stream of `(category, match)` pairs scanned by the recognizer,
in source iteration order.  The `try/except re.error` of the source is dead
code here: the pattern table is fixed and well-formed. -/
def nerAllMatches (s : List Char) : List (NerCat × RMatch) :=
  nerCats.flatMap fun c =>
    c.pats.flatMap fun p =>
      (findIter s p).map fun m => (c, m)

/-- Stable insertion into a list sorted by smaller key first: the new element
goes after every element with an equal-or-smaller key. -/
def insAsc {α : Type} (key : α → Nat) (x : α) : List α → List α
  | [] => [x]
  | y :: ys => if key x < key y then x :: y :: ys else y :: insAsc key x ys

/-- Stable ascending sort by a `Nat` key; models the stable
`entities.sort(key=lambda e: e.start_pos)`. -/
def stableSortAsc {α : Type} (key : α → Nat) (l : List α) : List α :=
  l.foldl (fun acc x => insAsc key x acc) []

/-- `EntityRecognizer.extract_entities`: scan all categories and patterns,
filter and score the matches, then sort the accepted entities by start
position (stable). -/
def extractEntitiesNER (text : String) : List NamedEntity :=
  let s := text.toList
  let st := (nerAllMatches s).foldl (fun st cm => nerStep s cm.1 st cm.2) ⟨[], 0, []⟩
  stableSortAsc (fun e => e.start_pos) st.ents

/-! ## Claim C1: Scenario A (corrected) -/

/-- The Scenario A input. -/
def aliceText : String := "Alice lived in Wonderland."

/-- What `extract_entities` actually produces on the Scenario A input:
"Wonderland" is first found by the PERSON pattern (category order), so it is
typed PERSON, and the later LOCATION match only increments its mentions. -/
def aliceEntities : List KGEntity :=
  [{ id := "E0", name := "Alice", entity_type := "PERSON", mentions := 1,
     first_mention_pos := 0 },
   { id := "E1", name := "Wonderland", entity_type := "PERSON", mentions := 2,
     first_mention_pos := 15 }]

/-- The single relation `extract_relations` actually produces on Scenario A:
the first LOCATED_IN pattern matches `Alice lived in Wonderland`. -/
def aliceRelations : List KGRelation :=
  [{ source_id := "E0", target_id := "E1", relation_type := "LOCATED_IN",
     confidence := 1, context := "Alice lived in Wonderland" }]

/-- Claim C1 as the specification states it: on Scenario A the entity set
holds a PERSON `Alice` and a LOCATION `Wonderland`, both with one mention,
and relation extraction yields nothing. -/
def claim1Stmt : Prop :=
  ∃ es, extractEntitiesKG aliceText = Except.ok es ∧
    (∃ e, e ∈ es ∧ e.name = "Alice" ∧ e.entity_type = "PERSON" ∧ e.mentions = 1) ∧
    (∃ e, e ∈ es ∧ e.name = "Wonderland" ∧ e.entity_type = "LOCATION" ∧ e.mentions = 1) ∧
    extractRelationsKG aliceText es = Except.ok []

/-- C1 (counterexample): Scenario A of the spec is false on the code — on
`"Alice lived in Wonderland."` there is no LOCATION entity (Wonderland is
typed PERSON with 2 mentions) and one LOCATED_IN relation is produced. -/
theorem claim_C1_counterexample : ¬ claim1Stmt := by
  rintro ⟨es, hes, -, ⟨e, hmem, hname, hty, -⟩, -⟩
  have hok : Except.ok aliceEntities = Except.ok es :=
    (show extractEntitiesKG aliceText = Except.ok aliceEntities by rfl).symm.trans hes
  cases hok
  simp only [aliceEntities, List.mem_cons, List.mem_singleton, List.not_mem_nil] at hmem
  rcases hmem with h | h | h
  · rw [h] at hname; exact absurd hname (by decide)
  · rw [h] at hty; exact absurd hty (by decide)
  · exact h.elim

/-- C1 (amended): on the Scenario A input the entity set contains a PERSON
`Alice` with 1 mention and a PERSON `Wonderland` (typed by the first-seen
PERSON pattern) with 2 mentions, and relation extraction produces exactly
one relation, LOCATED_IN from Alice to Wonderland. -/
theorem claim_C1_theorem :
    extractEntitiesKG aliceText = Except.ok aliceEntities ∧
    extractRelationsKG aliceText aliceEntities = Except.ok aliceRelations := by
  exact ⟨by rfl, by rfl⟩

/-! ## Claim C2: totality of `extract_entities` (code bug) -/

/-- C2: the claimed totality fails — on `"the sword"` the OBJECT pattern
matches with its optional adjective group unbound, `match.group(1)` is
`None`, and `None.strip()` raises an uncaught `AttributeError`. -/
theorem claim_C2_theorem :
    extractEntitiesKG "the sword" = Except.error PyErr.attributeError ∧
    extractEntitiesKG "" = Except.ok [] := by
  exact ⟨by rfl, by rfl⟩

/-! ## Claim C5: graph density formula -/

/-- C5: `graph_density` equals `edge_count / (node_count * (node_count - 1))`
when the graph has more than one node and `0` otherwise, for every entity
set and relation list. -/
theorem claim_C5_theorem (es : List KGEntity) (rs : List KGRelation) :
    (calcStatisticsKG es rs).graph_density =
      if 1 < (buildGraphStructure es rs).node_count then
        ((buildGraphStructure es rs).edge_count : ℚ) /
          (((buildGraphStructure es rs).node_count *
            ((buildGraphStructure es rs).node_count - 1) : ℕ) : ℚ)
      else 0 := by
  simp [calcStatisticsKG, buildGraphStructure]

/-! ## Claim C7: the skip filter ignores the category (corrected) -/

/-- C7 (counterexample): the claim that the skip filter is category-dependent
is false — `_should_skip_entity` never reads its `entity_type` argument, so
no name is accepted under one category and rejected under another. -/
theorem claim_C7_counterexample :
    ¬ ∃ (name t1 t2 : String), shouldSkipEntity name t1 ≠ shouldSkipEntity name t2 := by
  rintro ⟨name, t1, t2, h⟩
  exact h rfl

/-- C7 (amended): the skip filter depends only on the name, identically for
every category: a span is skipped exactly when its name is shorter than two
characters or belongs to the fixed stop-word list. -/
theorem claim_C7_theorem (name t1 t2 : String) :
    shouldSkipEntity name t1 = shouldSkipEntity name t2 ∧
    (shouldSkipEntity name t1 = true ↔ name.length < 2 ∨ name ∈ kgSkipWords) := by
  refine ⟨rfl, ?_⟩
  simp [shouldSkipEntity]

/-! ## Claim C6: Cypher escaping contract -/

/-- The combined effect of both `replace` passes on one character. -/
def esc1 (c : Char) : List Char :=
  (replaceQ (replaceBS [c])).filter isPrintableChar

theorem escapeCypherL_cons (c : Char) (l : List Char) :
    escapeCypherL (c :: l) = esc1 c ++ escapeCypherL l := by
  simp [escapeCypherL, esc1, replaceBS, replaceQ, List.flatMap_cons, List.flatMap_append,
        List.filter_append]

theorem scanLit_esc1_append (c : Char) (l : List Char) :
    scanLit (esc1 c ++ l) = scanLit l := by
  by_cases hb : c = bsC
  · subst hb
    have h1 : esc1 bsC = [bsC, bsC] := by decide
    rw [h1]
    simp [scanLit]
  · by_cases hq : c = qC
    · subst hq
      have h1 : esc1 qC = [bsC, qC] := by decide
      rw [h1]
      simp [scanLit]
    · have hb2 : (c == bsC) = false := beq_eq_false_iff_ne.mpr hb
      have hq2 : (c == qC) = false := beq_eq_false_iff_ne.mpr hq
      have h1 : esc1 c = if isPrintableChar c then [c] else [] := by
        simp [esc1, replaceBS, replaceQ, hb, hq, hb2, hq2, List.filter_singleton]
      rw [h1]
      by_cases hp : isPrintableChar c
      · rw [if_pos hp]
        show scanLit (c :: l) = scanLit l
        cases l with
        | nil => simp [scanLit, hb, hq, hb2, hq2]
        | cons d r => simp [scanLit, hb, hq, hb2, hq2]
      · simp [if_neg hp]

theorem scanLit_escapeCypherL (l : List Char) : scanLit (escapeCypherL l) = true := by
  induction l with
  | nil => rfl
  | cons c l ih => rw [escapeCypherL_cons, scanLit_esc1_append, ih]

/-- C6: every string value that `to_cypher` embeds inside a single-quoted
literal (node ids and labels, edge endpoint ids) passes through
`_escape_cypher_string`, and the escaped text never contains a bare single
quote or a dangling backslash: scanning it with the backslash-escape rule
never terminates the literal early.  Stated both for the escape function on
arbitrary strings and for all literals embedded by the exporter on an
arbitrary graph. -/
theorem claim_C6_theorem :
    (∀ v : String, scanLit (escapeCypher v).toList = true) ∧
    (∀ g : KGGraph, (cypherEmbeddedLiterals g).all (fun s => scanLit s.toList) = true) := by
  have hmain : ∀ v : String, scanLit (escapeCypher v).toList = true := by
    intro v
    exact scanLit_escapeCypherL v.toList
  refine ⟨hmain, ?_⟩
  intro g
  rw [List.all_eq_true]
  intro s hs
  simp only [cypherEmbeddedLiterals, List.mem_append, List.mem_flatMap, List.mem_cons,
    List.mem_singleton, List.not_mem_nil, or_false] at hs
  rcases hs with ⟨n, -, h | h⟩ | ⟨e, -, h | h⟩ <;> subst h <;> exact hmain _

/-! ## Claim C9: top entities (stable descending sort) -/

theorem insDesc_nil {α : Type} (key : α → Nat) (x : α) : insDesc key x [] = [x] := rfl

theorem insDesc_cons {α : Type} (key : α → Nat) (x y : α) (ys : List α) :
    insDesc key x (y :: ys) =
      if key y < key x then x :: y :: ys else y :: insDesc key x ys := rfl

theorem insDesc_perm {α : Type} (key : α → Nat) (x : α) (l : List α) :
    List.Perm (insDesc key x l) (x :: l) := by
  induction l with
  | nil => exact List.Perm.refl _
  | cons y ys ih =>
    by_cases h : key y < key x
    · rw [insDesc_cons, if_pos h]
    · rw [insDesc_cons, if_neg h]
      exact (ih.cons y).trans (List.Perm.swap x y ys)

theorem insDesc_sorted {α : Type} (key : α → Nat) (x : α) (l : List α)
    (h : l.Pairwise (fun a b => key b ≤ key a)) :
    (insDesc key x l).Pairwise (fun a b => key b ≤ key a) := by
  induction l with
  | nil => simp [insDesc]
  | cons y ys ih =>
    rcases List.pairwise_cons.mp h with ⟨hy, hys⟩
    by_cases hlt : key y < key x
    · rw [insDesc_cons, if_pos hlt]
      refine List.pairwise_cons.mpr ⟨?_, h⟩
      intro z hz
      rcases List.mem_cons.mp hz with rfl | hz2
      · exact Nat.le_of_lt hlt
      · exact le_trans (hy z hz2) (Nat.le_of_lt hlt)
    · rw [insDesc_cons, if_neg hlt]
      refine List.pairwise_cons.mpr ⟨?_, ih hys⟩
      intro z hz
      rcases List.mem_cons.mp ((insDesc_perm key x ys).mem_iff.mp hz) with rfl | hz3
      · exact Nat.le_of_not_lt hlt
      · exact hy z hz3

theorem insDesc_filter_eq {α : Type} (key : α → Nat) (x : α) (l : List α) (m : Nat)
    (hs : l.Pairwise (fun a b => key b ≤ key a)) (hx : key x = m) :
    (insDesc key x l).filter (fun e => key e == m) =
      l.filter (fun e => key e == m) ++ [x] := by
  induction l with
  | nil => simp [insDesc, hx]
  | cons y ys ih =>
    rcases List.pairwise_cons.mp hs with ⟨hy, hys⟩
    by_cases hlt : key y < key x
    · rw [insDesc_cons, if_pos hlt]
      have hnone : (y :: ys).filter (fun e => key e == m) = [] := by
        rw [List.filter_eq_nil_iff]
        intro z hz
        have hzy : key z ≤ key y := by
          rcases List.mem_cons.mp hz with rfl | hz2
          · exact le_refl _
          · exact hy z hz2
        have hzm : key z < m := lt_of_le_of_lt hzy (hx ▸ hlt)
        simp [Nat.ne_of_lt hzm]
      rw [hnone, List.nil_append, List.filter_cons]
      simp [hx, hnone]
    · rw [insDesc_cons, if_neg hlt]
      rw [List.filter_cons, List.filter_cons, ih hys]
      by_cases hym : key y = m
      · simp [hym]
      · simp [hym]

theorem insDesc_filter_ne {α : Type} (key : α → Nat) (x : α) (l : List α) (m : Nat)
    (hx : key x ≠ m) :
    (insDesc key x l).filter (fun e => key e == m) = l.filter (fun e => key e == m) := by
  induction l with
  | nil => simp [insDesc, hx]
  | cons y ys ih =>
    by_cases hlt : key y < key x
    · rw [insDesc_cons, if_pos hlt]
      rw [List.filter_cons, List.filter_cons]
      simp [hx]
    · rw [insDesc_cons, if_neg hlt]
      rw [List.filter_cons, List.filter_cons, ih]

theorem stableSortDesc_aux_perm {α : Type} (key : α → Nat) :
    ∀ l acc : List α,
      List.Perm (l.foldl (fun a x => insDesc key x a) acc) (acc ++ l) := by
  intro l
  induction l with
  | nil => intro acc; simp
  | cons x xs ih =>
    intro acc
    have h1 : List.Perm (xs.foldl (fun a y => insDesc key y a) (insDesc key x acc))
        (insDesc key x acc ++ xs) := ih _
    have h2 : List.Perm (insDesc key x acc ++ xs) ((x :: acc) ++ xs) :=
      (insDesc_perm key x acc).append_right xs
    have h3 : List.Perm (x :: (acc ++ xs)) (acc ++ x :: xs) := List.perm_middle.symm
    exact (h1.trans h2).trans h3

theorem stableSortDesc_perm {α : Type} (key : α → Nat) (l : List α) :
    List.Perm (stableSortDesc key l) l := by
  simpa using stableSortDesc_aux_perm key l []

theorem stableSortDesc_invariant {α : Type} (key : α → Nat) :
    ∀ (l acc : List α), acc.Pairwise (fun a b => key b ≤ key a) →
      (l.foldl (fun a x => insDesc key x a) acc).Pairwise (fun a b => key b ≤ key a) ∧
      ∀ m : Nat, (l.foldl (fun a x => insDesc key x a) acc).filter (fun e => key e == m) =
        acc.filter (fun e => key e == m) ++ l.filter (fun e => key e == m) := by
  intro l
  induction l with
  | nil => intro acc hacc; simp [hacc]
  | cons x xs ih =>
    intro acc hacc
    have hsort := insDesc_sorted key x acc hacc
    obtain ⟨h1, h2⟩ := ih (insDesc key x acc) hsort
    refine ⟨h1, ?_⟩
    intro m
    rw [List.foldl_cons, h2 m]
    by_cases hx : key x = m
    · rw [insDesc_filter_eq key x acc m hacc hx, List.filter_cons]
      simp [hx]
    · rw [insDesc_filter_ne key x acc m hx, List.filter_cons]
      simp [hx]

/-- C9: `top_entities` is the first five entries of the stable descending
sort of the entity list by mention count: the sorted list is a permutation
of the entity list, its mention counts are non-increasing, entities with
equal mention counts keep their discovery order (the filter at each mention
count is unchanged), and every listed entity has at least as many mentions
as every entity beyond the fifth place. -/
theorem claim_C9_theorem (es : List KGEntity) (rs : List KGRelation) :
    (calcStatisticsKG es rs).top_entities =
      ((sortedByMentions es).take 5).map (fun e => (e.name, e.mentions)) ∧
    (sortedByMentions es).Perm es ∧
    (sortedByMentions es).Pairwise (fun a b => b.mentions ≤ a.mentions) ∧
    (∀ m : Nat, (sortedByMentions es).filter (fun e => e.mentions == m) =
      es.filter (fun e => e.mentions == m)) ∧
    (∀ a ∈ (sortedByMentions es).take 5, ∀ b ∈ (sortedByMentions es).drop 5,
      b.mentions ≤ a.mentions) := by
  obtain ⟨hsort0, hfilter⟩ :=
    stableSortDesc_invariant (fun e : KGEntity => e.mentions) es [] (List.Pairwise.nil)
  have hsort : (sortedByMentions es).Pairwise (fun a b => b.mentions ≤ a.mentions) := hsort0
  refine ⟨rfl, stableSortDesc_perm _ es, hsort, ?_, ?_⟩
  · intro m
    have h := hfilter m
    simp only [List.filter_nil, List.nil_append] at h
    exact h
  · have hsplit : (sortedByMentions es).take 5 ++ (sortedByMentions es).drop 5 =
      sortedByMentions es := List.take_append_drop 5 _
    rw [← hsplit] at hsort
    exact (List.pairwise_append.mp hsort).2.2

/-! ## Claim C10: case-insensitive coalescing invariant -/

/-- Lower-cased entity name, the coalescing key. -/
def lowName (e : KGEntity) : List Char := pyLower e.name.toList

/-- Identity-and-typing signature of an entity: everything except the
mention counter and attributes. -/
def entitySig (e : KGEntity) : String × String × String := (e.id, e.name, e.entity_type)

theorem bumpMentions_map_lowName (tid : String) (es : List KGEntity) :
    (bumpMentions tid es).map lowName = es.map lowName := by
  induction es with
  | nil => rfl
  | cons e rest ih =>
    by_cases h : e.id == tid
    · simp [bumpMentions, h, lowName]
    · simp [bumpMentions, h, ih]

theorem bumpMentions_map_sig (tid : String) (es : List KGEntity) :
    (bumpMentions tid es).map entitySig = es.map entitySig := by
  induction es with
  | nil => rfl
  | cons e rest ih =>
    by_cases h : e.id == tid
    · simp [bumpMentions, h, entitySig]
    · simp [bumpMentions, h, ih]

theorem findExistingEntity_none (es : List KGEntity) (name : String)
    (h : findExistingEntity es name = none) :
    ∀ e ∈ es, pyLower e.name.toList ≠ pyLower name.toList := by
  induction es with
  | nil => intro e he; exact absurd he (List.not_mem_nil e)
  | cons e2 rest ih =>
    intro e he
    by_cases hb : pyLower e2.name.toList == pyLower name.toList
    · rw [findExistingEntity, if_pos hb] at h
      exact absurd h (by simp)
    · rw [findExistingEntity, if_neg hb] at h
      rcases List.mem_cons.mp he with rfl | he2
      · intro hc
        rw [hc] at hb
        exact hb (by simp)
      · exact ih h e he2

theorem findExistingEntity_isSome (es : List KGEntity) (name : String)
    (h : ∃ e ∈ es, pyLower e.name.toList = pyLower name.toList) :
    ∃ eid, findExistingEntity es name = some eid := by
  induction es with
  | nil => rcases h with ⟨e, he, -⟩; exact absurd he (List.not_mem_nil e)
  | cons e2 rest ih =>
    by_cases hb : pyLower e2.name.toList == pyLower name.toList
    · exact ⟨e2.id, by rw [findExistingEntity, if_pos hb]⟩
    · rcases h with ⟨e, he, hle⟩
      rcases List.mem_cons.mp he with rfl | he2
      · exact absurd hle (by simpa using hb)
      · rcases ih ⟨e, he2, hle⟩ with ⟨eid, heid⟩
        exact ⟨eid, by rw [findExistingEntity, if_neg hb]; exact heid⟩

theorem kgProcessName_nodup (st : KGState) (name ety : String) (pos : Nat)
    (h : (st.ents.map lowName).Nodup) :
    ((kgProcessName st name ety pos).ents.map lowName).Nodup := by
  unfold kgProcessName
  by_cases hskip : shouldSkipEntity name ety = true
  · simpa [hskip] using h
  · rcases hfe : findExistingEntity st.ents name with - | eid
    · simp only [Bool.not_eq_true] at hskip
      simp only [hskip, Bool.false_eq_true, if_false, hfe]
      rw [List.map_append]
      have hnotin : pyLower name.toList ∉ st.ents.map lowName := by
        intro hmem
        rcases List.mem_map.mp hmem with ⟨e, he, hle⟩
        exact findExistingEntity_none st.ents name hfe e he hle
      refine List.Nodup.append h (by simp) ?_
      intro x hx hx2
      simp only [List.map_cons, List.map_nil, List.mem_singleton] at hx2
      rw [hx2] at hx
      exact hnotin hx
    · simp only [Bool.not_eq_true] at hskip
      simp only [hskip, Bool.false_eq_true, if_false, hfe]
      rw [bumpMentions_map_lowName]
      exact h

theorem kgProcessName_sig_preserved (st : KGState) (name ety : String) (pos : Nat)
    (h : ∃ e ∈ st.ents, pyLower e.name.toList = pyLower name.toList) :
    (kgProcessName st name ety pos).ents.map entitySig = st.ents.map entitySig := by
  unfold kgProcessName
  by_cases hskip : shouldSkipEntity name ety = true
  · simp [hskip]
  · rcases findExistingEntity_isSome st.ents name h with ⟨eid, hfe⟩
    simp only [Bool.not_eq_true] at hskip
    simp only [hskip, Bool.false_eq_true, if_false, hfe]
    exact bumpMentions_map_sig eid st.ents

theorem kgStepMatch_ok (s : List Char) (ety : String) (p : KGPat) (st st2 : KGState)
    (m : RMatch) (h : kgStepMatch s ety p st m = Except.ok st2) :
    ∃ nm, st2 = kgProcessName st nm ety m.start := by
  unfold kgStepMatch at h
  rcases hn : (if p.numGroups > 0 then glook 1 m.groups else some (m.text s)) with - | n
  · rw [hn] at h; exact absurd h (by simp)
  · rw [hn] at h
    simp only [Except.ok.injEq] at h
    exact ⟨String.mk (pyStrip n.toList), h.symm⟩

theorem kgFold_nodup (s : List Char) :
    ∀ (items : List (String × KGPat × RMatch)) (st st' : KGState),
      (st.ents.map lowName).Nodup →
      kgFoldE s items st = Except.ok st' →
      (st'.ents.map lowName).Nodup := by
  intro items
  induction items with
  | nil =>
    intro st st' h hf
    rw [kgFoldE] at hf
    cases hf
    exact h
  | cons it rest ih =>
    intro st st' h hf
    rw [kgFoldE] at hf
    cases hstep : kgStepMatch s it.1 it.2.1 st it.2.2 with
    | error err => rw [hstep] at hf; exact absurd hf (by simp)
    | ok st2 =>
      rw [hstep] at hf
      rcases kgStepMatch_ok s it.1 it.2.1 st st2 it.2.2 hstep with ⟨nm, hnm⟩
      exact ih st2 st' (hnm ▸ kgProcessName_nodup st nm it.1 it.2.2.start h) hf

/-- C10 (part one): entity sets produced by `extract_entities` never hold two
entities with the same lower-cased name; (part two): processing a span whose
normalized name already exists leaves every entity id, canonical name and
type unchanged — only a mention counter can change, and no entity is added. -/
theorem claim_C10_theorem :
    (∀ (text : String) (es : List KGEntity), extractEntitiesKG text = Except.ok es →
      (es.map lowName).Nodup) ∧
    (∀ (st : KGState) (name ety : String) (pos : Nat),
      (∃ e ∈ st.ents, pyLower e.name.toList = pyLower name.toList) →
      (kgProcessName st name ety pos).ents.map entitySig = st.ents.map entitySig) := by
  constructor
  · intro text es h
    unfold extractEntitiesKG at h
    cases hf : kgFoldE text.toList (kgAllMatches text.toList) ⟨[], 0⟩ with
    | error err => rw [hf] at h; exact absurd h (by simp [Except.map])
    | ok st' =>
      rw [hf] at h
      simp only [Except.map, Except.ok.injEq] at h
      have hinit : ((⟨[], 0⟩ : KGState).ents.map lowName).Nodup := by simp
      exact h ▸ kgFold_nodup text.toList (kgAllMatches text.toList) ⟨[], 0⟩ st' hinit hf
  · exact fun st name ety pos h => kgProcessName_sig_preserved st name ety pos h

/-- The entities `extract_entities` yields on `"Bob met Tom"`. -/
def c10BobTom : List KGEntity :=
  [{ id := "E0", name := "Bob", entity_type := "PERSON", mentions := 1,
     first_mention_pos := 0 },
   { id := "E1", name := "Tom", entity_type := "PERSON", mentions := 1,
     first_mention_pos := 8 }]

/-- A one-entity coalescer state for exercising the merge path. -/
def c10State : KGState :=
  { ents := [{ id := "E0", name := "Bob", entity_type := "PERSON", mentions := 1,
               first_mention_pos := 0 }],
    counter := 1 }

/-- C10 witness: part one applied to the input `"Bob met Tom"`, part two
applied to a one-entity state and the differently-cased name `"BOB"`. -/
theorem claim_C10_witness :
    (c10BobTom.map lowName).Nodup ∧
    (kgProcessName c10State "BOB" "LOCATION" 7).ents.map entitySig =
      [("E0", "Bob", "PERSON")] := by
  constructor
  · exact claim_C10_theorem.1 "Bob met Tom" c10BobTom (by rfl)
  · exact (claim_C10_theorem.2 c10State "BOB" "LOCATION" 7
      ⟨{ id := "E0", name := "Bob", entity_type := "PERSON", mentions := 1,
         first_mention_pos := 0 }, List.mem_singleton_self _, by decide⟩).trans (by rfl)

/-! ## Claim C3: relation endpoint validity -/

/-- What the claim requires of every extracted relation: distinct endpoints,
both of which are ids of entities in the given entity set. -/
def relEndpointsOk (es : List KGEntity) (r : KGRelation) : Prop :=
  r.source_id ≠ r.target_id ∧
    (∃ e ∈ es, e.id = r.source_id) ∧ (∃ e ∈ es, e.id = r.target_id)

theorem setKey_mem (k v : String) (m : List (String × String)) (p : String × String)
    (hp : p ∈ setKey k v m) : p = (k, v) ∨ p ∈ m := by
  induction m with
  | nil =>
    rw [setKey] at hp
    exact Or.inl (List.mem_singleton.mp hp)
  | cons q rest ih =>
    rw [setKey] at hp
    by_cases hk : q.1 == k
    · rw [if_pos hk] at hp
      rcases List.mem_cons.mp hp with rfl | hin
      · exact Or.inl rfl
      · exact Or.inr (List.mem_cons_of_mem q hin)
    · rw [if_neg hk] at hp
      rcases List.mem_cons.mp hp with rfl | hin
      · exact Or.inr (List.mem_cons_self q rest)
      · rcases ih hin with heq | hin2
        · exact Or.inl heq
        · exact Or.inr (List.mem_cons_of_mem q hin2)

theorem getKey_mem (k : String) (m : List (String × String)) (v : String)
    (h : getKey k m = some v) : (k, v) ∈ m := by
  induction m with
  | nil => exact absurd h (by simp [getKey])
  | cons q rest ih =>
    rw [getKey] at h
    by_cases hk : q.1 == k
    · rw [if_pos hk] at h
      have hkk : q.1 = k := by simpa using hk
      have hv : q.2 = v := by simpa using h
      have : (k, v) = q := by
        rw [← hkk, ← hv]
      exact this ▸ List.mem_cons_self q rest
    · rw [if_neg hk] at h
      exact List.mem_cons_of_mem q (ih h)

theorem kgNameMap_mem (es : List KGEntity) :
    ∀ (acc : List (String × String)) (p : String × String),
      p ∈ es.foldl (fun a e => setKey (String.mk (pyLower e.name.toList)) e.id a) acc →
      p ∈ acc ∨ ∃ e ∈ es, e.id = p.2 := by
  induction es with
  | nil => intro acc p hp; exact Or.inl hp
  | cons e rest ih =>
    intro acc p hp
    rcases ih _ p hp with hacc | ⟨e2, he2, hid⟩
    · rcases setKey_mem _ _ _ _ hacc with heq | hin
      · exact Or.inr ⟨e, List.mem_cons_self e rest, by rw [heq]⟩
      · exact Or.inl hin
    · exact Or.inr ⟨e2, List.mem_cons_of_mem e he2, hid⟩

theorem getKey_kgNameMap (es : List KGEntity) (k v : String)
    (h : getKey k (kgNameMap es) = some v) : ∃ e ∈ es, e.id = v := by
  rcases kgNameMap_mem es [] (k, v) (getKey_mem k _ v h) with hnil | hex
  · exact absurd hnil (List.not_mem_nil _)
  · exact hex

theorem relStepMatch_valid (s : List Char) (rn : String) (p : KGPat) (es : List KGEntity)
    (rs rs2 : List KGRelation) (m : RMatch)
    (h : relStepMatch s rn p (kgNameMap es) rs m = Except.ok rs2)
    (hrs : ∀ r ∈ rs, relEndpointsOk es r) : ∀ r ∈ rs2, relEndpointsOk es r := by
  unfold relStepMatch at h
  by_cases hng : p.numGroups ≥ 2
  · rw [if_pos hng] at h
    cases hg1 : glook 1 m.groups with
    | none =>
      simp only [hg1] at h
      exact absurd h (by simp)
    | some g1 =>
      simp only [hg1] at h
      cases hg2 : glook 2 m.groups with
      | none =>
        simp only [hg2] at h
        exact absurd h (by simp)
      | some g2 =>
        simp only [hg2] at h
        cases hk1 : getKey (String.mk (pyLower (pyStrip g1.toList))) (kgNameMap es) with
        | none =>
          simp only [hk1] at h
          cases h
          exact hrs
        | some sid =>
          simp only [hk1] at h
          cases hk2 : getKey (String.mk (pyLower (pyStrip g2.toList))) (kgNameMap es) with
          | none => simp only [hk2] at h; cases h; exact hrs
          | some tid =>
            simp only [hk2] at h
            by_cases hc : sid ≠ "" ∧ tid ≠ "" ∧ sid ≠ tid
            · rw [if_pos hc] at h
              cases h
              intro r hr
              rcases List.mem_append.mp hr with hin | hnew
              · exact hrs r hin
              · rw [List.mem_singleton.mp hnew]
                exact ⟨hc.2.2, getKey_kgNameMap es _ sid hk1, getKey_kgNameMap es _ tid hk2⟩
            · rw [if_neg hc] at h; cases h; exact hrs
  · rw [if_neg hng] at h
    cases h
    exact hrs

theorem relFold_valid (s : List Char) (es : List KGEntity) :
    ∀ (items : List (String × KGPat × RMatch)) (rs rs2 : List KGRelation),
      (∀ r ∈ rs, relEndpointsOk es r) →
      relFoldE s (kgNameMap es) items rs = Except.ok rs2 →
      ∀ r ∈ rs2, relEndpointsOk es r := by
  intro items
  induction items with
  | nil =>
    intro rs rs2 hrs hf
    rw [relFoldE] at hf
    cases hf
    exact hrs
  | cons it rest ih =>
    intro rs rs2 hrs hf
    rw [relFoldE] at hf
    cases hstep : relStepMatch s it.1 it.2.1 (kgNameMap es) rs it.2.2 with
    | error err => rw [hstep] at hf; exact absurd hf (by simp)
    | ok rsMid =>
      rw [hstep] at hf
      exact ih rsMid rs2 (relStepMatch_valid s it.1 it.2.1 es rs rsMid it.2.2 hstep hrs) hf

/-- C3 (part one): for every input text and entity set, every relation the
extractor returns has distinct endpoints that are ids of entities in the
given set; (part two): one pattern match contributes a relation only when
its pattern has at least two capture groups, both groups are bound, and both
captured names resolve in the lower-cased entity-name map. -/
theorem claim_C3_theorem :
    (∀ (text : String) (es : List KGEntity) (rs : List KGRelation),
      extractRelationsKG text es = Except.ok rs → ∀ r ∈ rs, relEndpointsOk es r) ∧
    (∀ (s : List Char) (rn : String) (p : KGPat) (nm : List (String × String))
        (rs rs2 : List KGRelation) (m : RMatch),
      relStepMatch s rn p nm rs m = Except.ok rs2 → rs2 ≠ rs →
      p.numGroups ≥ 2 ∧ ∃ g1 g2, glook 1 m.groups = some g1 ∧ glook 2 m.groups = some g2 ∧
        (∃ sid, getKey (String.mk (pyLower (pyStrip g1.toList))) nm = some sid) ∧
        (∃ tid, getKey (String.mk (pyLower (pyStrip g2.toList))) nm = some tid)) := by
  constructor
  · intro text es rs h
    exact relFold_valid text.toList es (kgAllRelMatches text.toList) [] rs
      (by intro r hr; exact absurd hr (List.not_mem_nil r)) h
  · intro s rn p nm rs rs2 m h hne
    unfold relStepMatch at h
    by_cases hng : p.numGroups ≥ 2
    · rw [if_pos hng] at h
      refine ⟨hng, ?_⟩
      cases hg1 : glook 1 m.groups with
      | none =>
        simp only [hg1] at h
        exact absurd h (by simp)
      | some g1 =>
        simp only [hg1] at h
        cases hg2 : glook 2 m.groups with
        | none =>
          simp only [hg2] at h
          exact absurd h (by simp)
        | some g2 =>
          simp only [hg2] at h
          refine ⟨g1, g2, rfl, rfl, ?_⟩
          cases hk1 : getKey (String.mk (pyLower (pyStrip g1.toList))) nm with
          | none =>
            simp only [hk1] at h
            cases h
            exact absurd rfl hne
          | some sid =>
            simp only [hk1] at h
            cases hk2 : getKey (String.mk (pyLower (pyStrip g2.toList))) nm with
            | none => simp only [hk2] at h; cases h; exact absurd rfl hne
            | some tid => exact ⟨⟨sid, rfl⟩, ⟨tid, rfl⟩⟩
    · rw [if_neg hng] at h
      cases h
      exact absurd rfl hne

/-- The entity set used by the C3 witness. -/
def c3Entities : List KGEntity :=
  [{ id := "E0", name := "Alice", entity_type := "PERSON", mentions := 1,
     first_mention_pos := 0 },
   { id := "E1", name := "Bob", entity_type := "PERSON", mentions := 1,
     first_mention_pos := 10 }]

/-- The relation list extracted from the C3 witness text. -/
def c3Relations : List KGRelation :=
  [{ source_id := "E0", target_id := "E1", relation_type := "FRIENDSHIP",
     confidence := 1, context := "Alice and Bob are friends" }]

/-- C3 witness: part one applied to `"Alice and Bob are friends."` and its
extracted FRIENDSHIP relation; part two applied to one concrete
relation-step invocation that does append a relation. -/
theorem claim_C3_witness :
    relEndpointsOk c3Entities
      { source_id := "E0", target_id := "E1", relation_type := "FRIENDSHIP",
        confidence := 1, context := "Alice and Bob are friends" } ∧
    ((⟨Re.eps, 2⟩ : KGPat).numGroups ≥ 2 ∧
      ∃ g1 g2, glook 1 [(1, "Alice"), (2, "Bob")] = some g1 ∧
        glook 2 [(1, "Alice"), (2, "Bob")] = some g2 ∧
        (∃ sid, getKey (String.mk (pyLower (pyStrip g1.toList)))
          [("alice", "E0"), ("bob", "E1")] = some sid) ∧
        (∃ tid, getKey (String.mk (pyLower (pyStrip g2.toList)))
          [("alice", "E0"), ("bob", "E1")] = some tid)) := by
  constructor
  · exact claim_C3_theorem.1 "Alice and Bob are friends." c3Entities c3Relations (by rfl)
      _ (List.mem_singleton_self _)
  · exact claim_C3_theorem.2 [] "FRIENDSHIP" ⟨Re.eps, 2⟩ [("alice", "E0"), ("bob", "E1")]
      [] _ ⟨0, 0, [(1, "Alice"), (2, "Bob")]⟩ (by rfl) (by decide)

/-! ## Claim C4: accepted spans never overlap -/

/-- The half-open-interval disjointness the claim asserts. -/
def spansDisjoint (a b : NamedEntity) : Prop :=
  ¬(a.start_pos < b.end_pos ∧ b.start_pos < a.end_pos)

/-- The entity a successful `nerStep` iteration appends. -/
def nerNewEntity (s : List Char) (cat : NerCat) (st : NerState) (m : RMatch) : NamedEntity :=
  { id := "NE" ++ toString st.counter,
    text := String.mk (pyStrip (nerSurface s m).toList),
    entity_type := cat.name,
    start_pos := m.start, end_pos := m.stop,
    confidence := calcConfidence (String.mk (pyStrip (nerSurface s m).toList)) cat
      (getContext s m.start m.stop),
    context := getContext s m.start m.stop }

theorem nerStep_cases (s : List Char) (cat : NerCat) (st : NerState) (m : RMatch) :
    nerStep s cat st m = st ∨
    (overlapsWithExisting (m.start, m.stop) st.seen = false ∧
      nerStep s cat st m =
        { ents := st.ents ++ [nerNewEntity s cat st m],
          counter := st.counter + 1,
          seen := st.seen ++ [(m.start, m.stop)] }) := by
  simp only [nerStep, nerNewEntity]
  split_ifs with h1 h2 h3
  · exact Or.inl rfl
  · exact Or.inl rfl
  · exact Or.inl rfl
  · exact Or.inr ⟨by simpa using h3, rfl⟩

theorem overlaps_false_forall (span : Nat × Nat) (seen : List (Nat × Nat))
    (h : overlapsWithExisting span seen = false) :
    ∀ ex ∈ seen, span.2 ≤ ex.1 ∨ ex.2 ≤ span.1 := by
  intro ex hex
  have hall := List.any_eq_false.mp h ex hex
  simp only [Bool.not_eq_true', Bool.not_eq_false] at hall
  simp only [Bool.or_eq_true, decide_eq_true_eq] at hall
  exact hall

/-- Joint loop invariant of the recognizer: every accepted entity has its
span registered in `seen`, accepted spans are pairwise disjoint, and every
accepted entity carries the confidence its category scorer assigned. -/
def nerInv (st : NerState) : Prop :=
  (∀ e ∈ st.ents, (e.start_pos, e.end_pos) ∈ st.seen) ∧
  st.ents.Pairwise spansDisjoint ∧
  ∀ e ∈ st.ents, ∃ cat ∈ nerCats, e.entity_type = cat.name ∧
    e.confidence = calcConfidence e.text cat e.context

theorem nerStep_inv (s : List Char) (cat : NerCat) (st : NerState) (m : RMatch)
    (hcat : cat ∈ nerCats) (h : nerInv st) : nerInv (nerStep s cat st m) := by
  rcases nerStep_cases s cat st m with heq | ⟨hov, heq⟩
  · rw [heq]; exact h
  · rw [heq]
    obtain ⟨hseen, hpair, hconf⟩ := h
    refine ⟨?_, ?_, ?_⟩
    · intro e he
      rcases List.mem_append.mp he with hin | hnew
      · exact List.mem_append_left _ (hseen e hin)
      · rw [List.mem_singleton.mp hnew]
        exact List.mem_append_right _ (by simp [nerNewEntity])
    · rw [List.pairwise_append]
      refine ⟨hpair, List.pairwise_singleton _ _, ?_⟩
      intro a ha b hb
      rw [List.mem_singleton.mp hb]
      have hcond := overlaps_false_forall (m.start, m.stop) st.seen hov
        (a.start_pos, a.end_pos) (hseen a ha)
      intro hoverlap
      obtain ⟨p, q⟩ := hoverlap
      simp only [nerNewEntity] at p q
      rcases hcond with hle | hge
      · exact absurd q (by omega)
      · exact absurd p (by omega)
    · intro e he
      rcases List.mem_append.mp he with hin | hnew
      · exact hconf e hin
      · rw [List.mem_singleton.mp hnew]
        exact ⟨cat, hcat, rfl, rfl⟩

theorem nerFold_inv (s : List Char) :
    ∀ (items : List (NerCat × RMatch)) (st : NerState),
      (∀ cm ∈ items, cm.1 ∈ nerCats) → nerInv st →
      nerInv (items.foldl (fun st cm => nerStep s cm.1 st cm.2) st) := by
  intro items
  induction items with
  | nil => intro st _ h; exact h
  | cons cm rest ih =>
    intro st hmem h
    rw [List.foldl_cons]
    exact ih _ (fun x hx => hmem x (List.mem_cons_of_mem cm hx))
      (nerStep_inv s cm.1 st cm.2 (hmem cm (List.mem_cons_self cm rest)) h)

theorem nerAllMatches_cats (s : List Char) : ∀ cm ∈ nerAllMatches s, cm.1 ∈ nerCats := by
  intro cm hcm
  simp only [nerAllMatches, List.mem_flatMap, List.mem_map] at hcm
  rcases hcm with ⟨c, hc, p, _, m, _, rfl⟩
  exact hc

theorem insAsc_perm {α : Type} (key : α → Nat) (x : α) (l : List α) :
    List.Perm (insAsc key x l) (x :: l) := by
  induction l with
  | nil => exact List.Perm.refl _
  | cons y ys ih =>
    by_cases h : key x < key y
    · rw [insAsc, if_pos h]
    · rw [insAsc, if_neg h]
      exact (ih.cons y).trans (List.Perm.swap x y ys)

theorem stableSortAsc_aux_perm {α : Type} (key : α → Nat) :
    ∀ l acc : List α,
      List.Perm (l.foldl (fun a x => insAsc key x a) acc) (acc ++ l) := by
  intro l
  induction l with
  | nil => intro acc; simp
  | cons x xs ih =>
    intro acc
    have h1 : List.Perm (xs.foldl (fun a y => insAsc key y a) (insAsc key x acc))
        (insAsc key x acc ++ xs) := ih _
    have h2 : List.Perm (insAsc key x acc ++ xs) ((x :: acc) ++ xs) :=
      (insAsc_perm key x acc).append_right xs
    have h3 : List.Perm (x :: (acc ++ xs)) (acc ++ x :: xs) := List.perm_middle.symm
    exact (h1.trans h2).trans h3

theorem stableSortAsc_perm {α : Type} (key : α → Nat) (l : List α) :
    List.Perm (stableSortAsc key l) l := by
  simpa using stableSortAsc_aux_perm key l []

theorem spansDisjoint_symm : Symmetric spansDisjoint := by
  intro a b h hab
  exact h ⟨hab.2, hab.1⟩

/-- The recognizer state after scanning the whole match stream of a text. -/
def nerFinalState (text : String) : NerState :=
  (nerAllMatches text.toList).foldl
    (fun st cm => nerStep text.toList cm.1 st cm.2) ⟨[], 0, []⟩

theorem nerFinalState_inv (text : String) : nerInv (nerFinalState text) :=
  nerFold_inv text.toList (nerAllMatches text.toList) ⟨[], 0, []⟩
    (nerAllMatches_cats text.toList)
    ⟨by intro e he; exact absurd he (List.not_mem_nil e), List.Pairwise.nil,
     by intro e he; exact absurd he (List.not_mem_nil e)⟩

theorem extractEntitiesNER_perm (text : String) :
    List.Perm (extractEntitiesNER text) (nerFinalState text).ents := by
  simp only [extractEntitiesNER, nerFinalState]
  exact stableSortAsc_perm _ _

/-- C4: for every input text, no two entities accepted by the recognizer
have overlapping spans: their half-open `[start, end)` intervals are
disjoint, across all categories and patterns. -/
theorem claim_C4_theorem (text : String) :
    (extractEntitiesNER text).Pairwise
      (fun a b => ¬(a.start_pos < b.end_pos ∧ b.start_pos < a.end_pos)) := by
  have h : (extractEntitiesNER text).Pairwise spansDisjoint :=
    (List.Perm.pairwise_iff (fun hab => spansDisjoint_symm hab)
      (extractEntitiesNER_perm text)).mpr (nerFinalState_inv text).2.1
  exact h

/-! ## Claim C8: confidence formula and bounds -/

/-- The confidence formula as section 4.2 of the specification words it:
base weight plus `0.1` per distinct clue present, capped at `1.0`, then
multiplied by `0.8` for surface text shorter than 3 characters, then rounded
to two decimal places.  Stated independently of the code path so that the
code-side `_calculate_confidence` can be proved to refine it. -/
def confSpec (w : ℚ) (clues : Nat) (len : Nat) : ℚ :=
  round2 ((min (w + (1/10) * clues) 1) * (if len < 3 then 8/10 else 1))

theorem halfEven_bounds (x : ℚ) (h0 : 0 ≤ x) (h1 : x ≤ 100) :
    0 ≤ halfEven x ∧ halfEven x ≤ 100 := by
  have hf0 : (0 : ℤ) ≤ ⌊x⌋ := Int.floor_nonneg.mpr h0
  have hfx : (⌊x⌋ : ℚ) ≤ x := Int.floor_le x
  have hf100 : ⌊x⌋ ≤ 100 := by
    have : (⌊x⌋ : ℚ) ≤ 100 := le_trans hfx h1
    exact_mod_cast this
  simp only [halfEven]
  split_ifs with hlt hgt hev
  · exact ⟨hf0, hf100⟩
  · have hle : (1 : ℚ)/2 ≤ x - ⌊x⌋ := le_of_not_lt hlt
    have hflt : (⌊x⌋ : ℚ) < 100 := by linarith
    have : ⌊x⌋ < 100 := by exact_mod_cast hflt
    omega
  · exact ⟨hf0, hf100⟩
  · have hle : (1 : ℚ)/2 ≤ x - ⌊x⌋ := le_of_not_lt hlt
    have hflt : (⌊x⌋ : ℚ) < 100 := by linarith
    have : ⌊x⌋ < 100 := by exact_mod_cast hflt
    omega

theorem round2_bounds (q : ℚ) (h0 : 0 ≤ q) (h1 : q ≤ 1) :
    0 ≤ round2 q ∧ round2 q ≤ 1 := by
  obtain ⟨hl, hr⟩ := halfEven_bounds (100 * q) (by linarith) (by linarith)
  have hlq : (0 : ℚ) ≤ (halfEven (100 * q) : ℚ) := by exact_mod_cast hl
  have hrq : (halfEven (100 * q) : ℚ) ≤ 100 := by exact_mod_cast hr
  unfold round2
  constructor
  · positivity
  · rw [div_le_one (by norm_num)]
    exact hrq

theorem calcConfidence_eq_confSpec (t : String) (cat : NerCat) (ctx : String)
    (hw : cat.weight ≤ 1) :
    calcConfidence t cat ctx = confSpec cat.weight (countClues cat ctx) t.length := by
  simp only [calcConfidence, confSpec]
  by_cases hc : 0 < countClues cat ctx
  · rw [if_pos hc]
    by_cases hl : t.length < 3
    · rw [if_pos hl, if_pos hl]
    · rw [if_neg hl, if_neg hl, mul_one]
  · rw [if_neg hc]
    have hc0 : countClues cat ctx = 0 := Nat.eq_zero_of_not_pos hc
    rw [hc0]
    have hmin : min (cat.weight + (1/10) * (0 : Nat)) 1 = cat.weight := by
      simp only [Nat.cast_zero, mul_zero, add_zero]
      exact min_eq_left hw
    rw [hmin]
    by_cases hl : t.length < 3
    · rw [if_pos hl, if_pos hl]
    · rw [if_neg hl, if_neg hl, mul_one]

theorem calcConfidence_bounds (t : String) (cat : NerCat) (ctx : String)
    (h0 : 0 ≤ cat.weight) (h1 : cat.weight ≤ 1) :
    0 ≤ calcConfidence t cat ctx ∧ calcConfidence t cat ctx ≤ 1 := by
  rw [calcConfidence_eq_confSpec t cat ctx h1]
  unfold confSpec
  have hm0 : 0 ≤ min (cat.weight + (1/10) * (countClues cat ctx : ℚ)) 1 := by
    refine le_min ?_ (by norm_num)
    positivity
  have hm1 : min (cat.weight + (1/10) * (countClues cat ctx : ℚ)) 1 ≤ 1 := min_le_right _ _
  by_cases hl : t.length < 3
  · rw [if_pos hl]
    refine round2_bounds _ (by positivity) ?_
    nlinarith
  · rw [if_neg hl, mul_one]
    exact round2_bounds _ hm0 hm1

theorem nerCats_weight_bounds (cat : NerCat) (h : cat ∈ nerCats) :
    0 ≤ cat.weight ∧ cat.weight ≤ 1 := by
  simp only [nerCats, List.mem_cons, List.not_mem_nil, or_false] at h
  rcases h with rfl | rfl | rfl | rfl | rfl | rfl | rfl | rfl <;> norm_num

/-- C8: every entity the recognizer returns carries the confidence computed
by its category scorer, which equals the spec formula (base weight, `+0.1`
per distinct clue present in the context window capped at `1.0`, `×0.8`
penalty below 3 characters, two-decimal rounding), and consequently lies in
`[0, 1]`. -/
theorem claim_C8_theorem (text : String) (e : NamedEntity)
    (h : e ∈ extractEntitiesNER text) :
    (∃ cat ∈ nerCats, e.entity_type = cat.name ∧
      e.confidence = confSpec cat.weight (countClues cat e.context) e.text.length) ∧
    0 ≤ e.confidence ∧ e.confidence ≤ 1 := by
  have hmem : e ∈ (nerFinalState text).ents :=
    (extractEntitiesNER_perm text).mem_iff.mp h
  obtain ⟨cat, hcat, hty, hconf⟩ := (nerFinalState_inv text).2.2 e hmem
  obtain ⟨hw0, hw1⟩ := nerCats_weight_bounds cat hcat
  refine ⟨⟨cat, hcat, hty, ?_⟩, ?_⟩
  · rw [hconf]
    exact calcConfidence_eq_confSpec e.text cat e.context hw1
  · rw [hconf]
    exact calcConfidence_bounds e.text cat e.context hw0 hw1

/-- The single entity the recognizer extracts from `"said Tom"`. -/
def c8Entity : NamedEntity :=
  { id := "NE0", text := "Tom", entity_type := "PERSON", start_pos := 0, end_pos := 8,
    confidence := 1, context := "said Tom" }

/-- C8 witness: the theorem applied to the entity extracted from
`"said Tom"` (base weight `1.0`, one clue present, capped at `1.0`). -/
theorem claim_C8_witness :
    ((∃ cat ∈ nerCats, c8Entity.entity_type = cat.name ∧
      c8Entity.confidence =
        confSpec cat.weight (countClues cat c8Entity.context) c8Entity.text.length) ∧
    0 ≤ c8Entity.confidence ∧ c8Entity.confidence ≤ 1) :=
  claim_C8_theorem "said Tom" c8Entity
    (by rw [show extractEntitiesNER "said Tom" = [c8Entity] by with_unfolding_all decide]
        exact List.mem_singleton_self _)

end SemAnalysis
